import Mathlib

/-!
Shallow embedding of the merge/normalize/dedupe/exclude pipeline of
`updateHostsFile.py` (functions `removeDupsAndExcl`, `stripRule`,
`normalizeRule`, `matchesExclusions`, `excludeDomain`, and the static-hosts
block of `writeOpeningHeader`), together with theorems settling the claims
about it.

Lines are modelled as `List Char`.  Python strings read from the merged file
arrive via `readlines()`, i.e. each line keeps its terminating newline except
possibly the last.  The embedding models the ASCII behaviour of Python's
`str` predicates (`\s`, `\w`, `\d`, `str.lower`), which covers the hosts-file
data the program processes.
-/

/-- Convert a string literal to the `List Char` representation used throughout. -/
def cs (s : String) : List Char := s.toList

/-- Python's whitespace class `\s` (ASCII part): space, tab, newline, carriage
return, vertical tab, form feed.  Also the class used by `str.split()` and
`str.strip()`. -/
def isPySpace (c : Char) : Bool :=
  c == ' ' || c == '\t' || c == '\n' || c == '\r' || c == '\x0b' || c == '\x0c'

/-- Python's `\d` (ASCII part). -/
def isDigitCh (c : Char) : Bool := c.isDigit

/-- Character class `[\w\.-]` of the rule regex in `normalizeRule` (ASCII `\w`). -/
def isHostChar (c : Char) : Bool :=
  c.isAlphanum || c == '_' || c == '.' || c == '-'

/-- Test whether `pat` occurs at the head of the second list. -/
def leadsWith : List Char → List Char → Bool
  | [], _ => true
  | _ :: _, [] => false
  | p :: ps, x :: xs => p == x && leadsWith ps xs

/-- Python's `pat in line` substring test. -/
def containsSub (pat : List Char) : List Char → Bool
  | [] => leadsWith pat []
  | c :: rest => leadsWith pat (c :: rest) || containsSub pat rest

/-- Auxiliary tokenizer for `splitWS`; `cur` holds the current token reversed. -/
def splitWSAux : List Char → List Char → List (List Char)
  | [], cur => if cur.isEmpty then [] else [cur.reverse]
  | c :: rest, cur =>
    if isPySpace c then
      if cur.isEmpty then splitWSAux rest [] else cur.reverse :: splitWSAux rest []
    else
      splitWSAux rest (c :: cur)

/-- Python's `str.split()` with no argument: split on runs of whitespace,
dropping leading/trailing whitespace, never producing empty tokens. -/
def splitWS (l : List Char) : List (List Char) := splitWSAux l []

/-- Python's `str.strip()` with no argument: remove whitespace from both ends. -/
def pyStrip (l : List Char) : List Char :=
  ((l.dropWhile isPySpace).reverse.dropWhile isPySpace).reverse

/-- Line 350, `line.replace("\t+", " ")`: `str.replace` is a literal (not
regex) replacement, so it rewrites each occurrence of the two-character
sequence tab-plus to a single space, left to right. -/
def replaceTabPlus : List Char → List Char
  | [] => []
  | '\t' :: '+' :: rest => ' ' :: replaceTabPlus rest
  | c :: rest => c :: replaceTabPlus rest

/-- Line 352, `line.rstrip(' .')`: remove the trailing run of spaces and
periods (and nothing else — in particular a terminating newline blocks it). -/
def rstripSpacePeriod (l : List Char) : List Char :=
  (l.reverse.dropWhile (fun c => c == ' ' || c == '.')).reverse

/-- Lines 350-352 of `removeDupsAndExcl`: the per-line preprocessing
`line = line.replace("\t+", " ")` then `line = line.rstrip(' .') + "\n"`. -/
def transformLine (raw : List Char) : List Char :=
  rstripSpacePeriod (replaceTabPlus raw) ++ ['\n']

/-- Line 354, `line[0] == "#" or re.match(r'^\s*$', line[0])`: the test is
applied to the one-character string `line[0]`, and `^\s*$` matches a
one-character string exactly when that character is whitespace.  So a line is
classified pass-through iff its first character is `#` or whitespace.  (The
`[]` case is unreachable: the driver always appends a newline first.) -/
def isPassThrough : List Char → Bool
  | [] => false
  | c :: _ => c == '#' || isPySpace c

/-- The literal `"::1"` tested by `if "::1" in line` (line 358). -/
def ccOne : List Char := cs "::1"

/-- `stripRule` (lines 398-404): keep only the first two whitespace-separated
tokens, joined by a single space; fewer than two tokens gives `""`. -/
def stripRule (line : List Char) : List Char :=
  match splitWS line with
  | t0 :: t1 :: _ => t0 ++ [' '] ++ t1
  | _ => []

/-! Regular expressions.  `excludeDomain` (line 253) compiles
`"([a-zA-Z\d-]+\.){0,}" + domain` and `matchesExclusions` (lines 255-260)
`.search`es each compiled pattern in the candidate hostname; `normalizeRule`
is hand-compiled further below.  A small Brzozowski-derivative matcher gives
executable semantics for the compiled exclusion patterns. -/

/-- Regular expressions over characters: empty word, a single character
satisfying a predicate, alternation, concatenation, Kleene star. -/
inductive RE : Type
  | eps : RE
  | pred : (Char → Bool) → RE
  | alt : RE → RE → RE
  | cat : RE → RE → RE
  | star : RE → RE

/-- Does the regex accept the empty word? -/
def RE.nullable : RE → Bool
  | .eps => true
  | .pred _ => false
  | .alt r s => r.nullable || s.nullable
  | .cat r s => r.nullable && s.nullable
  | .star _ => true

/-- Brzozowski derivative of a regex by a character. -/
def RE.deriv : RE → Char → RE
  | .eps, _ => .pred (fun _ => false)
  | .pred p, c => if p c then .eps else .pred (fun _ => false)
  | .alt r s, c => .alt (r.deriv c) (s.deriv c)
  | .cat r s, c =>
    if r.nullable then .alt (.cat (r.deriv c) s) (s.deriv c)
    else .cat (r.deriv c) s
  | .star r, c => .cat (r.deriv c) (.star r)

/-- Does some (possibly empty) initial segment of `l` match `r`? -/
def RE.matchStart (r : RE) : List Char → Bool
  | [] => r.nullable
  | c :: rest => r.nullable || (r.deriv c).matchStart rest

/-- Python's `re.search` truthiness: does some substring of `l` match `r`? -/
def RE.found (r : RE) : List Char → Bool
  | [] => r.nullable
  | c :: rest => r.matchStart (c :: rest) || r.found rest

/-- The character class `[a-zA-Z\d-]` of the exclusion pattern. -/
def labelChar : RE := .pred (fun c => c.isAlpha || c.isDigit || c == '-')

/-- `r+` as `r · r*`. -/
def rePlus (r : RE) : RE := .cat r (.star r)

/-- The fixed prefix `"([a-zA-Z\d-]+\.){0,}"` from `defaults["exclusionpattern"]`
(line 96): zero or more groups of one-or-more label characters followed by a
literal dot (`{0,}` is `*`). -/
def exclusionPatternRE : RE :=
  .star (.cat (rePlus labelChar) (.pred (fun c => c == '.')))

/-- Interpretation of the user-entered domain as the regex text it becomes in
`excludeDomain`: the domain is appended to the pattern string with NO escaping,
so a `.` in the domain is the regex metacharacter matching any character
except newline, while letters, digits and hyphens are literals.  (Faithful for
domains built from letters, digits, hyphens and dots, the shape
`gather_custom_exclusions` collects.) -/
def domainRE (d : List Char) : RE :=
  d.foldr
    (fun c acc =>
      .cat (if c == '.' then RE.pred (fun x => !(x == '\n')) else RE.pred (fun x => x == c)) acc)
    .eps

/-- `excludeDomain` (line 253): the regex compiled from
`settings["exclusionpattern"] + domain`. -/
def excludeDomain (d : List Char) : RE := .cat exclusionPatternRE (domainRE d)

/-- Modelled from the spec's words (section 4.2): the same construction but
with the domain's regex metacharacters escaped, so every character of the
domain — dots included — is a literal.  Used only to compare the spec's
description against the code's `excludeDomain`. -/
def specEscapedDomainRE (d : List Char) : RE :=
  d.foldr (fun c acc => .cat (.pred (fun x => x == c)) acc) .eps

/-- Modelled from the spec's words (section 4.2): prefix plus escaped domain. -/
def specExclusionRE (d : List Char) : RE :=
  .cat exclusionPatternRE (specEscapedDomainRE d)

/-- `matchesExclusions` (lines 255-260): extract `strippedRule.split()[1]` and
`.search` every compiled exclusion regex in it.  (On input with fewer than two
tokens Python would raise `IndexError`; the driver guards the call with
`not strippedRule`, so that branch is unreachable and modelled as `false`.) -/
def matchesExclusions (regexs : List RE) (strippedRule : List Char) : Bool :=
  match splitWS strippedRule with
  | _ :: strippedDomain :: _ => regexs.any (fun r => r.found strippedDomain)
  | _ => false

/-- Configuration consumed by the pipeline, mirroring the `settings` keys the
modelled code reads: `targetip`, `keepdomaincomments`, `exclusionregexs`
(compiled by `excludeDomain`), `exclusions` (whitelist literals), and the
starting `numberofrules` (0 in `defaults`). -/
structure MergeCfg where
  targetip : List Char
  keepdomaincomments : Bool
  exclusionregexs : List RE
  exclusions : List (List Char)
  numberofrules : Nat

/-- Maximal nonempty munch of characters satisfying `p`; returns the token and
the remainder, or `none` if the first character does not satisfy `p`. -/
def munch (p : Char → Bool) (l : List Char) : Option (List Char × List Char) :=
  match l.takeWhile p with
  | [] => none
  | t => some (t, l.dropWhile p)

/-- Consume one expected character. -/
def expectChar (c : Char) : List Char → Option (List Char)
  | [] => none
  | x :: rest => if x == c then some rest else none

/-- Hand-compiled form of `re.search(r'^[ \t]*(\d+\.\d+\.\d+\.\d+)\s+([\w\.-]+)(.*)', rule)`
from `normalizeRule` (line 380), returning `(group 2, group 3)`.  The `^`
anchor restricts the search to position 0.  Every greedy piece is followed by
a piece whose first character class is disjoint from it, so greedy matching
with backtracking coincides with maximal munch; `(.*)` then takes the rest of
the line up to a newline. -/
def parseRule (l : List Char) : Option (List Char × List Char) := do
  let l0 := l.dropWhile (fun c => c == ' ' || c == '\t')
  let (_, l1) ← munch isDigitCh l0
  let l2 ← expectChar '.' l1
  let (_, l3) ← munch isDigitCh l2
  let l4 ← expectChar '.' l3
  let (_, l5) ← munch isDigitCh l4
  let l6 ← expectChar '.' l5
  let (_, l7) ← munch isDigitCh l6
  let (_, l8) ← munch isPySpace l7
  let (host, l9) ← munch isHostChar l8
  pure (host, l9.takeWhile (fun c => !(c == '\n')))

/-- `normalizeRule` (lines 379-390): on a regex match, lowercase and strip the
hostname, then render `"%s %s #%s\n"` when a suffix exists and
`keepdomaincomments` is set, else `"%s %s\n"`; on no match Python prints the
rule and returns `(None, None)`, modelled as `none`. -/
def normalizeRule (cfg : MergeCfg) (rule : List Char) : Option (List Char × List Char) :=
  match parseRule rule with
  | none => none
  | some (host, suffix) =>
    let hostname := pyStrip (host.map Char.toLower)
    if !suffix.isEmpty && cfg.keepdomaincomments then
      some (hostname, cfg.targetip ++ [' '] ++ hostname ++ [' ', '#'] ++ suffix ++ ['\n'])
    else
      some (hostname, cfg.targetip ++ [' '] ++ hostname ++ ['\n'])

/-- One chunk written to `finalFile`, tagged by which of the two `writeData`
call sites in the loop produced it: the verbatim pass-through write (line 356)
or the normalized-rule write (line 370, which has `hostname` in scope).  The
file body is the concatenation of the `text` fields in order. -/
inductive Emit : Type
  | pass : List Char → Emit
  | rule : List Char → List Char → Emit
deriving DecidableEq

/-- The text a chunk contributes to the output file. -/
def Emit.text : Emit → List Char
  | .pass t => t
  | .rule _ t => t

/-- Mutable state of the `removeDupsAndExcl` loop: the chunks written so far,
the `hostnames` set (a list; only membership matters), and `numberOfRules`. -/
structure MergeState where
  output : List Emit
  hostnames : List (List Char)
  numberOfRules : Nat
deriving DecidableEq

/-- The loop body of `removeDupsAndExcl` (lines 345-372) for one line of
`mergeFile.readlines()`.  Python computes `write = "false"` via a loop over
the whitelist literals and then tests
`if normalizedRule and (hostname not in hostnames) and (write == "true")`;
the conjunction is rendered here as nested conditionals with the same value. -/
def processLine (cfg : MergeCfg) (st : MergeState) (raw : List Char) : MergeState :=
  let line := transformLine raw
  if isPassThrough line then
    { st with output := st.output ++ [Emit.pass line] }
  else if containsSub ccOne line then
    st
  else
    let strippedRule := stripRule line
    if strippedRule.isEmpty || matchesExclusions cfg.exclusionregexs strippedRule then
      st
    else
      match normalizeRule cfg strippedRule with
      | none => st
      | some (hostname, normalizedRule) =>
        if cfg.exclusions.any (fun e => containsSub e line) then
          st
        else if hostname ∈ st.hostnames then
          st
        else
          { output := st.output ++ [Emit.rule hostname normalizedRule],
            hostnames := hostname :: st.hostnames,
            numberOfRules := st.numberOfRules + 1 }

/-- Line 343: the pre-seeded `hostnames` set. -/
def initialHostnames : List (List Char) :=
  [cs "localhost", cs "localhost.localdomain", cs "local", cs "broadcasthost"]

/-- `removeDupsAndExcl` (lines 326-377) restricted to its merge loop: fold the
loop body over the lines of the merged file, starting from the pre-seeded
hostname set, empty output and `settings["numberofrules"]`. -/
def removeDupsAndExcl (cfg : MergeCfg) (rawLines : List (List Char)) : MergeState :=
  rawLines.foldl (processLine cfg)
    { output := [], hostnames := initialHostnames, numberOfRules := cfg.numberofrules }

/-- The static-hosts block of `writeOpeningHeader` (lines 421-432): the seven
fixed entries, the two machine-hostname entries on Linux, then a blank line.
Written only when `skipstatichosts` is false. -/
def staticHostsBlock (isLinux : Bool) (machineHostname : List Char) : List (List Char) :=
  [cs "127.0.0.1 localhost\n",
   cs "127.0.0.1 localhost.localdomain\n",
   cs "127.0.0.1 local\n",
   cs "255.255.255.255 broadcasthost\n",
   cs "::1 localhost\n",
   cs "fe80::1%lo0 localhost\n",
   cs "0.0.0.0 0.0.0.0\n"]
  ++ (if isLinux then
        [cs "127.0.1.1 " ++ machineHostname ++ ['\n'], cs "127.0.0.53 " ++ machineHostname ++ ['\n']]
      else [])
  ++ [cs "\n"]

/-- Number of rule chunks for hostname `h` in an output chunk list. -/
def ruleCount (h : List Char) (out : List Emit) : Nat :=
  out.countP (fun e =>
    match e with
    | .rule h2 _ => decide (h2 = h)
    | .pass _ => false)

/-- The hostname the pipeline would extract from a raw line, if any:
`normalizeRule` applied to the stripped transformed line, first component. -/
def hostnameOf (cfg : MergeCfg) (raw : List Char) : Option (List Char) :=
  match normalizeRule cfg (stripRule (transformLine raw)) with
  | some (h, _) => some h
  | none => none

/-- Default-flavoured configuration used for concrete runs: target IP
`0.0.0.0`, comments not kept, no exclusions. -/
def cfgA : MergeCfg :=
  { targetip := cs "0.0.0.0", keepdomaincomments := false,
    exclusionregexs := [], exclusions := [], numberofrules := 0 }

/-- `cfgA` with `keepdomaincomments := true`. -/
def cfgK : MergeCfg := { cfgA with keepdomaincomments := true }

/-- `cfgA` with one whitelist literal. -/
def cfgW : MergeCfg := { cfgA with exclusions := [cs "trackers-ok"] }

/-- `cfgA` with one compiled exclusion regex for the domain `a.com`. -/
def cfgE : MergeCfg := { cfgA with exclusionregexs := [excludeDomain (cs "a.com")] }

/-- The initial merge state of a run under a configuration starting at rule
count 0. -/
def st0 : MergeState :=
  { output := [], hostnames := initialHostnames, numberOfRules := 0 }

/-- Invariant of the merge loop: every hostname has at most one rule chunk,
an emitted hostname is in the seen set, the pre-seeded hostnames stay in the
seen set, and no pre-seeded hostname ever gets a rule chunk. -/
def MergeInv (st : MergeState) : Prop :=
  (∀ h : List Char, ruleCount h st.output ≤ 1)
  ∧ (∀ h : List Char, 1 ≤ ruleCount h st.output → h ∈ st.hostnames)
  ∧ (∀ h ∈ initialHostnames, h ∈ st.hostnames)
  ∧ (∀ h ∈ initialHostnames, ruleCount h st.output = 0)

lemma emit_state_ne (st : MergeState) (h t : List Char) :
    ({ output := st.output ++ [Emit.rule h t], hostnames := h :: st.hostnames,
       numberOfRules := st.numberOfRules + 1 } : MergeState) ≠ st := by
  intro heq
  have hlen := congrArg (fun s => s.output.length) heq
  simp at hlen

/-- C3: the code does NOT retain the comment suffix even with
`keepdomaincomments = true`: for the input line
`"0.0.0.0 ads.example.com # tracker\n"` the emitted record is
`"0.0.0.0 ads.example.com\n"`, because `normalizeRule` is applied to the
two-token stripped rule, from which the suffix is already gone. -/
theorem C3_comment_suffix_lost :
    removeDupsAndExcl cfgK [cs "0.0.0.0 ads.example.com # tracker\n"] =
      { output := [Emit.rule (cs "ads.example.com") (cs "0.0.0.0 ads.example.com\n")],
        hostnames := cs "ads.example.com" :: initialHostnames,
        numberOfRules := 1 } := by
  rfl

/-- C5: processing the comment line `"# note\n"` or the blank line `"\n"`
leaves the hostname set and the rule count unchanged, but the text written is
NOT a byte-for-byte copy: `rstrip(' .')` cannot strip past the terminating
newline, so a second newline is appended (`"# note\n\n"`, `"\n\n"`). -/
theorem C5_passthrough_doubled_newline (cfg : MergeCfg) (st : MergeState) :
    processLine cfg st (cs "# note\n") =
        { st with output := st.output ++ [Emit.pass (cs "# note\n\n")] }
      ∧ processLine cfg st (cs "\n") =
        { st with output := st.output ++ [Emit.pass (cs "\n\n")] } :=
  ⟨rfl, rfl⟩

/-- C7: for the newline-terminated line `"0.0.0.0 example.com.\n"` the trailing
period is NOT stripped (`rstrip(' .')` stops at the terminating newline that
`readlines` keeps), so the hostname `"example.com."` is recorded and emitted
with its period; only a line without a terminating newline (the last line of
the file) has the period stripped. -/
theorem C7_trailing_period_kept :
    removeDupsAndExcl cfgA [cs "0.0.0.0 example.com.\n"] =
      { output := [Emit.rule (cs "example.com.") (cs "0.0.0.0 example.com.\n")],
        hostnames := cs "example.com." :: initialHostnames,
        numberOfRules := 1 }
    ∧ removeDupsAndExcl cfgA [cs "0.0.0.0 example.com."] =
      { output := [Emit.rule (cs "example.com") (cs "0.0.0.0 example.com\n")],
        hostnames := cs "example.com" :: initialHostnames,
        numberOfRules := 1 } :=
  ⟨rfl, rfl⟩

/-- C4, counterexample: the comment line `"# see ::1 docs\n"` contains the
substring `"::1"` yet is NOT dropped — the pass-through test at line 354 runs
before the `"::1"` test at line 358, so the line is written to the body. -/
theorem C4_colon1_comment_emitted :
    (removeDupsAndExcl cfgA [cs "# see ::1 docs\n"]).output =
        [Emit.pass (cs "# see ::1 docs\n\n")]
      ∧ containsSub ccOne (cs "# see ::1 docs\n\n") = true :=
  ⟨rfl, rfl⟩

/-- C6, counterexample: the line `" 0.0.0.0 padded.example.com\n"` starts with
a space, so it is classified pass-through and copied (with the transformation)
instead of being parsed as a rule: no hostname is recorded and no rule record
is emitted, although the rule pattern itself would allow leading whitespace. -/
theorem C6_leading_ws_copied :
    removeDupsAndExcl cfgA [cs " 0.0.0.0 padded.example.com\n"] =
      { output := [Emit.pass (cs " 0.0.0.0 padded.example.com\n\n")],
        hostnames := initialHostnames,
        numberOfRules := 0 } :=
  rfl

/-- C8, counterexample: the domain is appended to the exclusion pattern with no
escaping, so with the exclusion domain `"a.com"` the hostname `"aXcom"` IS
suffix-pattern-excluded (the dot matches `X`), contrary to the claim. -/
theorem C8_unescaped_dot_matches :
    matchesExclusions [excludeDomain (cs "a.com")] (cs "0.0.0.0 aXcom") = true := by
  decide

/-- C8, amended: the compiled pattern is `([a-zA-Z\d-]+\.){0,}` followed by the
domain text used verbatim as a regex, so the dots of the domain match any
character (not only literal dots): for the exclusion domain `"a.com"`, the
hostnames `"a.com"`, `"sub.a.com"` and also `"aXcom"` are excluded while
`"b.org"` is not, and the spec's escaped construction differs from the code's
exactly there. -/
theorem C8_exclusion_unescaped :
    matchesExclusions [excludeDomain (cs "a.com")] (cs "0.0.0.0 a.com") = true
    ∧ matchesExclusions [excludeDomain (cs "a.com")] (cs "0.0.0.0 sub.a.com") = true
    ∧ matchesExclusions [excludeDomain (cs "a.com")] (cs "0.0.0.0 b.org") = false
    ∧ (excludeDomain (cs "a.com")).found (cs "aXcom") = true
    ∧ (specExclusionRE (cs "a.com")).found (cs "aXcom") = false
    ∧ (specExclusionRE (cs "a.com")).found (cs "sub.a.com") = true := by
  refine ⟨by decide, by decide, by decide, by decide, by decide, by decide⟩

lemma isEmpty_false_of_ne {l : List Char} (h : l ≠ []) : l.isEmpty = false := by
  cases l with
  | nil => exact absurd rfl h
  | cons a as => rfl

lemma ruleCount_append_pass (h t : List Char) (o : List Emit) :
    ruleCount h (o ++ [Emit.pass t]) = ruleCount h o := by
  simp [ruleCount, List.countP_append, List.countP_cons]

lemma ruleCount_append_rule (h h2 t : List Char) (o : List Emit) :
    ruleCount h (o ++ [Emit.rule h2 t]) =
      ruleCount h o + (if h2 = h then 1 else 0) := by
  by_cases hh : h2 = h <;>
    simp [ruleCount, List.countP_append, List.countP_cons, hh]

/-- Each loop iteration either leaves the state unchanged, appends one
pass-through chunk, or appends one rule chunk for a hostname not yet seen,
adding it to the seen set and bumping the count. -/
lemma processLine_shape (cfg : MergeCfg) (st : MergeState) (raw : List Char) :
    processLine cfg st raw = st
    ∨ processLine cfg st raw =
        { st with output := st.output ++ [Emit.pass (transformLine raw)] }
    ∨ ∃ h t, h ∉ st.hostnames ∧ processLine cfg st raw =
        { output := st.output ++ [Emit.rule h t], hostnames := h :: st.hostnames,
          numberOfRules := st.numberOfRules + 1 } := by
  simp only [processLine]
  split
  · exact Or.inr (Or.inl rfl)
  split
  · exact Or.inl rfl
  split
  · exact Or.inl rfl
  split
  · exact Or.inl rfl
  split
  · exact Or.inl rfl
  split
  · exact Or.inl rfl
  next hmem =>
    exact Or.inr (Or.inr ⟨_, _, hmem, rfl⟩)

lemma MergeInv_processLine (cfg : MergeCfg) (st : MergeState) (raw : List Char)
    (hinv : MergeInv st) : MergeInv (processLine cfg st raw) := by
  rcases processLine_shape cfg st raw with heq | heq | ⟨h, t, hnm, heq⟩ <;> rw [heq]
  · exact hinv
  · refine ⟨?_, ?_, ?_, ?_⟩
    · intro h2
      rw [ruleCount_append_pass]
      exact hinv.1 h2
    · intro h2 hle
      rw [ruleCount_append_pass] at hle
      exact hinv.2.1 h2 hle
    · exact hinv.2.2.1
    · intro h2 hh2
      rw [ruleCount_append_pass]
      exact hinv.2.2.2 h2 hh2
  · have h0 : ruleCount h st.output = 0 := by
      by_contra hne
      exact hnm (hinv.2.1 h (Nat.one_le_iff_ne_zero.mpr hne))
    refine ⟨?_, ?_, ?_, ?_⟩
    · intro h2
      rw [ruleCount_append_rule]
      by_cases hh : h = h2
      · subst hh
        simp [h0]
      · have := hinv.1 h2
        simp [hh]
        omega
    · intro h2 hle
      rw [ruleCount_append_rule] at hle
      by_cases hh : h = h2
      · subst hh
        exact List.mem_cons_self h st.hostnames
      · simp [hh] at hle
        exact List.mem_cons_of_mem h (hinv.2.1 h2 hle)
    · intro h2 hh2
      exact List.mem_cons_of_mem h (hinv.2.2.1 h2 hh2)
    · intro h2 hh2
      rw [ruleCount_append_rule]
      have hne : h ≠ h2 := by
        intro hc
        subst hc
        exact hnm (hinv.2.2.1 h hh2)
      simp [hne]
      exact hinv.2.2.2 h2 hh2

lemma MergeInv_foldl (cfg : MergeCfg) (lines : List (List Char)) :
    ∀ st : MergeState, MergeInv st → MergeInv (lines.foldl (processLine cfg) st) := by
  induction lines with
  | nil => exact fun st h => h
  | cons l ls ih => exact fun st h => ih _ (MergeInv_processLine cfg st l h)

lemma MergeInv_init (cfg : MergeCfg) :
    MergeInv { output := [], hostnames := initialHostnames,
               numberOfRules := cfg.numberofrules } := by
  refine ⟨?_, ?_, ?_, ?_⟩
  · intro h
    simp [ruleCount]
  · intro h hle
    simp [ruleCount] at hle
  · exact fun h hh => hh
  · intro h hh
    simp [ruleCount]

/-- C1: dedup invariant of `removeDupsAndExcl`: every hostname has at most one
rule record in the output (so each hostname appearing in the merged body
appears exactly once), and the four pre-seeded hostnames `localhost`,
`localhost.localdomain`, `local` and `broadcasthost` are never emitted as rule
records. -/
theorem C1_dedup_unique (cfg : MergeCfg) (rawLines : List (List Char)) :
    (∀ h : List Char, ruleCount h (removeDupsAndExcl cfg rawLines).output ≤ 1)
    ∧ (∀ h ∈ initialHostnames, ruleCount h (removeDupsAndExcl cfg rawLines).output = 0) := by
  have hinv := MergeInv_foldl cfg rawLines _ (MergeInv_init cfg)
  exact ⟨hinv.1, hinv.2.2.2⟩

/-- Witness for C1: at a concrete run, the pre-seeded hostname `localhost`
gets no rule record. -/
theorem C1_dedup_unique_witness :
    ruleCount (cs "localhost") (removeDupsAndExcl cfgA [cs "0.0.0.0 a.com\n"]).output = 0 :=
  (C1_dedup_unique cfgA [cs "0.0.0.0 a.com\n"]).2 (cs "localhost") (by decide)

/-- C2: first-wins ordering.  (1) Once a hostname is in the seen set, any
later line that would normalize to that hostname leaves the output, the seen
set and the count unchanged.  (2) Concretely, for `"0.0.0.0 a.com"` followed
by `"1.2.3.4 a.com"` only the record derived from the first occurrence is
emitted and the count is 1. -/
theorem C2_first_wins :
    (∀ (cfg : MergeCfg) (st : MergeState) (raw h : List Char),
      isPassThrough (transformLine raw) = false →
      hostnameOf cfg raw = some h →
      h ∈ st.hostnames →
      processLine cfg st raw = st)
    ∧ removeDupsAndExcl cfgA [cs "0.0.0.0 a.com\n", cs "1.2.3.4 a.com\n"] =
        { output := [Emit.rule (cs "a.com") (cs "0.0.0.0 a.com\n")],
          hostnames := cs "a.com" :: initialHostnames,
          numberOfRules := 1 } := by
  constructor
  · intro cfg st raw h hp hhost hmem
    rcases hn : normalizeRule cfg (stripRule (transformLine raw)) with _ | ⟨h2, nr⟩
    · simp [hostnameOf, hn] at hhost
    · have hh2 : h2 = h := by
        simpa [hostnameOf, hn] using hhost
      subst hh2
      simp [processLine, hp, hn, hmem]
  · rfl

/-- Witness for C2: the duplicate line `"1.2.3.4 a.com\n"` leaves the state
reached after the first line unchanged. -/
theorem C2_first_wins_witness :
    processLine cfgA
      { output := [Emit.rule (cs "a.com") (cs "0.0.0.0 a.com\n")],
        hostnames := cs "a.com" :: initialHostnames, numberOfRules := 1 }
      (cs "1.2.3.4 a.com\n") =
      { output := [Emit.rule (cs "a.com") (cs "0.0.0.0 a.com\n")],
        hostnames := cs "a.com" :: initialHostnames, numberOfRules := 1 } :=
  C2_first_wins.1 cfgA _ (cs "1.2.3.4 a.com\n") (cs "a.com")
    (by decide) (by decide) (by decide)

/-- C4, amended: every non-pass-through line containing `"::1"` is dropped by
the merge driver (state unchanged); pass-through lines are emitted even if
they contain `"::1"` (see the counterexample), and the static block written by
`writeOpeningHeader` contributes exactly two lines containing `"::1"`: the
fixed `"::1 localhost"` and `"fe80::1%lo0 localhost"` entries. -/
theorem C4_colon1_drop :
    (∀ (cfg : MergeCfg) (st : MergeState) (raw : List Char),
      isPassThrough (transformLine raw) = false →
      containsSub ccOne (transformLine raw) = true →
      processLine cfg st raw = st)
    ∧ (staticHostsBlock false []).filter (fun l => containsSub ccOne l) =
        [cs "::1 localhost\n", cs "fe80::1%lo0 localhost\n"] := by
  constructor
  · intro cfg st raw hp hc
    simp [processLine, hp, hc]
  · decide

/-- Witness for C4: the non-pass-through line `"::1 ads.example.com\n"`
containing `"::1"` leaves the initial state unchanged. -/
theorem C4_colon1_drop_witness :
    processLine cfgA st0 (cs "::1 ads.example.com\n") = st0 :=
  C4_colon1_drop.1 cfgA st0 (cs "::1 ads.example.com\n") (by decide) (by decide)

/-- C6, amended: a line is treated as pass-through iff its FIRST character
(after the trailing-trim transformation) is `#` or a whitespace character —
not "iff the line is entirely whitespace".  Pass-through lines are emitted
(transformed) verbatim; every other line proceeds to rule processing, ending
either dropped or emitted as a rule record.  In particular a line with
leading whitespace before a valid rule is copied through, never parsed as a
rule (see the counterexample). -/
theorem C6_classification (cfg : MergeCfg) (st : MergeState) (raw : List Char) :
    (∃ c rest, transformLine raw = c :: rest
      ∧ isPassThrough (transformLine raw) = (c == '#' || isPySpace c))
    ∧ (isPassThrough (transformLine raw) = true →
        processLine cfg st raw =
          { st with output := st.output ++ [Emit.pass (transformLine raw)] })
    ∧ (isPassThrough (transformLine raw) = false →
        processLine cfg st raw = st
        ∨ ∃ h t, processLine cfg st raw =
            { output := st.output ++ [Emit.rule h t], hostnames := h :: st.hostnames,
              numberOfRules := st.numberOfRules + 1 }) := by
  refine ⟨?_, ?_, ?_⟩
  · cases hl : rstripSpacePeriod (replaceTabPlus raw) with
    | nil => exact ⟨'\n', [], by simp [transformLine, hl], by simp [transformLine, hl]; rfl⟩
    | cons a as =>
      refine ⟨a, as ++ ['\n'], by simp [transformLine, hl], ?_⟩
      have : transformLine raw = a :: (as ++ ['\n']) := by simp [transformLine, hl]
      rw [this]
      rfl
  · intro hp
    simp [processLine, hp]
  · intro hp
    simp only [processLine, hp, Bool.false_eq_true, if_false]
    split
    · exact Or.inl rfl
    split
    · exact Or.inl rfl
    split
    · exact Or.inl rfl
    split
    · exact Or.inl rfl
    split
    · exact Or.inl rfl
    exact Or.inr ⟨_, _, rfl⟩

/-- Witness for C6: concrete uses of all three parts at the leading-space line
`" 0.0.0.0 a.com\n"` (classified pass-through) and at the rule line
`"5.6.7.8 w.com\n"` (classified non-pass-through). -/
theorem C6_classification_witness :
    processLine cfgA st0 (cs " 0.0.0.0 a.com\n") =
        { st0 with output := st0.output ++ [Emit.pass (cs " 0.0.0.0 a.com\n\n")] }
      ∧ (processLine cfgA st0 (cs "5.6.7.8 w.com\n") = st0
          ∨ ∃ h t, processLine cfgA st0 (cs "5.6.7.8 w.com\n") =
              { output := st0.output ++ [Emit.rule h t], hostnames := h :: st0.hostnames,
                numberOfRules := st0.numberOfRules + 1 }) :=
  ⟨(C6_classification cfgA st0 (cs " 0.0.0.0 a.com\n")).2.1 (by decide),
   (C6_classification cfgA st0 (cs "5.6.7.8 w.com\n")).2.2 (by decide)⟩

/-- C9: exclusion disjunction and asymmetry.  For a line that reaches the rule
stage (not pass-through, no `"::1"`, a two-token stripped rule, a parse that
yields a fresh hostname), the line is dropped iff its stripped rule's second
token matches some compiled suffix pattern (`matchesExclusions`, applied to
the un-normalized hostname) OR the full line text contains some literal
whitelist substring (tested on `line`, not on the normalized record); in
either case the hostname is not added to the seen set. -/
theorem C9_exclusion_disjunction (cfg : MergeCfg) (st : MergeState)
    (raw h nr : List Char)
    (hp : isPassThrough (transformLine raw) = false)
    (hcc : containsSub ccOne (transformLine raw) = false)
    (hsr : stripRule (transformLine raw) ≠ [])
    (hn : normalizeRule cfg (stripRule (transformLine raw)) = some (h, nr))
    (hmem : h ∉ st.hostnames) :
    processLine cfg st raw = st ↔
      (matchesExclusions cfg.exclusionregexs (stripRule (transformLine raw)) = true
        ∨ cfg.exclusions.any (fun e => containsSub e (transformLine raw)) = true) := by
  have hie : (stripRule (transformLine raw)).isEmpty = false := isEmpty_false_of_ne hsr
  constructor
  · intro heq
    by_contra hor
    push_neg at hor
    obtain ⟨hm, hw⟩ := hor
    simp only [ne_eq, Bool.not_eq_true] at hm hw
    simp [processLine, hp, hcc, hie, hm, hn, hw, hmem] at heq
    exact emit_state_ne st h nr heq
  · intro hor
    rcases hor with hm | hw
    · simp [processLine, hp, hcc, hm]
    · by_cases hm2 : matchesExclusions cfg.exclusionregexs (stripRule (transformLine raw)) = true
      · simp [processLine, hp, hcc, hm2]
      · simp only [ne_eq, Bool.not_eq_true] at hm2
        simp [processLine, hp, hcc, hie, hm2, hn, hw]

/-- Witness for C9: with the compiled exclusion regex for `a.com`, the line
`"0.0.0.0 tracker.a.com\n"` is dropped, and the iff instantiates at it. -/
theorem C9_exclusion_disjunction_witness :
    processLine cfgE st0 (cs "0.0.0.0 tracker.a.com\n") = st0 ↔
      (matchesExclusions cfgE.exclusionregexs
          (stripRule (transformLine (cs "0.0.0.0 tracker.a.com\n"))) = true
        ∨ cfgE.exclusions.any
            (fun e => containsSub e (transformLine (cs "0.0.0.0 tracker.a.com\n"))) = true) :=
  C9_exclusion_disjunction cfgE st0 (cs "0.0.0.0 tracker.a.com\n")
    (cs "tracker.a.com") (cs "0.0.0.0 tracker.a.com\n")
    (by decide) (by decide) (by decide) (by decide) (by decide)

/-- C10: frame property of dropped lines.  (1) For every non-pass-through line
that is dropped — it contains `"::1"`, has fewer than two whitespace tokens,
matches a compiled suffix-exclusion pattern, contains a whitelist literal, or
fails to parse — processing leaves output, seen set and count unchanged.
(2) Consequently a hostname whose first occurrence was dropped (here by a
whitelist literal matching only that line's comment) is still emitted from a
later non-excluded line. -/
theorem C10_dropped_line_frame :
    (∀ (cfg : MergeCfg) (st : MergeState) (raw : List Char),
      isPassThrough (transformLine raw) = false →
      (containsSub ccOne (transformLine raw) = true
        ∨ stripRule (transformLine raw) = []
        ∨ matchesExclusions cfg.exclusionregexs (stripRule (transformLine raw)) = true
        ∨ normalizeRule cfg (stripRule (transformLine raw)) = none
        ∨ cfg.exclusions.any (fun e => containsSub e (transformLine raw)) = true) →
      processLine cfg st raw = st)
    ∧ removeDupsAndExcl cfgW
        [cs "0.0.0.0 a.com # trackers-ok\n", cs "0.0.0.0 a.com\n"] =
        { output := [Emit.rule (cs "a.com") (cs "0.0.0.0 a.com\n")],
          hostnames := cs "a.com" :: initialHostnames,
          numberOfRules := 1 } := by
  constructor
  · intro cfg st raw hp hdrop
    rcases hdrop with hc | hsr | hme | hnr | hwl
    · simp [processLine, hp, hc]
    · simp [processLine, hp, hsr]
    · simp [processLine, hp, hme]
    · simp [processLine, hp, hnr]
    · rcases hn : normalizeRule cfg (stripRule (transformLine raw)) with _ | ⟨h, nr⟩ <;>
        simp [processLine, hp, hn, hwl]
  · rfl

/-- Witness for C10: the line `"0.0.0.0 a.com # trackers-ok\n"`, whose comment
contains the whitelist literal, is dropped from the initial state. -/
theorem C10_dropped_line_frame_witness :
    processLine cfgW st0 (cs "0.0.0.0 a.com # trackers-ok\n") = st0 :=
  C10_dropped_line_frame.1 cfgW st0 (cs "0.0.0.0 a.com # trackers-ok\n")
    (by decide)
    (Or.inr (Or.inr (Or.inr (Or.inr (by decide)))))
